import Mathlib

/-!
Shallow embedding of the Sandia Flame-D validation script
(src/valid/sandia_valid/valid.py) and proofs about its field batching,
time matching, loading and validation logic.

Conventions of the embedding:
  * Python floats are modelled as exact rationals.
  * Fallible code is modelled with Option/Except: an uncaught exception
    (StopIteration, ValueError, IndexError, KeyError) is a "crash" that
    aborts the surrounding computation, while a FileNotFoundError is a
    distinguished value that the source catches per case.
  * numpy matrices are lists of rows of rationals.
-/

/-- Fields that are always required for post-processing (valid.py line 72,
the set req_fields). -/
def req_fields : List String := ["U", "alphat", "nut", "k", "epsilon", "G"]

/-- Insert a string into a list, keeping it sorted and skipping duplicates.
Together with foldr this models Python sorted(set(...)). -/
def insertUnique (x : String) : List String → List String
  | [] => [x]
  | y :: ys =>
    if x = y then y :: ys
    else if x < y then x :: y :: ys
    else y :: insertUnique x ys

/-- Sorted list of the distinct elements of a list of strings: the model of
Python sorted over a set of strings. -/
def sortedDedup (l : List String) : List String := l.foldr insertUnique []

/-- Model of _make_full_fields (valid.py lines 75-79): required fields
unioned with the requested fields, minus the velocity field U when not
extracting, sorted. -/
def make_full_fields (fields : List String) (for_extract : Bool) : List String :=
  let subtract : List String := if for_extract then [] else ["U"]
  sortedDedup ((req_fields ++ fields).filter (fun x => decide (x ∉ subtract)))

/-- Model of _make_fields (valid.py lines 82-87): the full field list joined
into a space-separated parenthesised list (extraction) or an
underscore-joined file-name fragment (load). -/
def make_fields (fields : List String) (for_extract : Bool) : String :=
  let f := make_full_fields fields for_extract
  if for_extract then "(" ++ String.intercalate " " f ++ ")"
  else String.intercalate "_" f

/-- Model of _field_iter (valid.py lines 90-99): split the field list, as
given, into successive batches of at most 10 fields.  The for_extract flag
is accepted and ignored, exactly as in the source. -/
def field_iter (fields : List String) (for_extract : Bool) : List (List String) :=
  if fields = [] then []
  else fields.take 10 :: field_iter (fields.drop 10) for_extract
termination_by fields.length
decreasing_by
  simp only [List.length_drop]
  have h0 : 0 < fields.length := List.length_pos.mpr (by assumption)
  omega

/-- Model of _field_index (valid.py lines 102-103): the index of a field in
the canonical full field list. -/
def field_index (field : String) (fields : List String) (for_extract : Bool) : Nat :=
  (make_full_fields fields for_extract).indexOf field

/-- Model of _num_fields (valid.py lines 106-107). -/
def num_fields (fields : List String) (for_extract : Bool) : Nat :=
  (make_full_fields fields for_extract).length

/-- A sample matrix: a list of rows, each row a position coordinate followed
by one value per field. -/
abbrev Mat := List (List ℚ)

/-- Model of _timecheck (valid.py lines 185-186): numpy isclose(t1, t2,
atol=1e-10, rtol=1e-10), which is |t1 - t2| <= atol + rtol * |t2|. -/
def timecheck (t1 t2 : ℚ) : Bool :=
  decide (|t1 - t2| ≤ 1 / 10 ^ 10 + 1 / 10 ^ 10 * |t2|)

/-- Model of numpy reshape((-1, k)) applied to the flat vector np.fromfile
reads (valid.py lines 205-207): split the flat list into consecutive rows
of k entries.  Divisibility is checked by the caller, mirroring the
ValueError numpy raises. -/
def reshape (k : Nat) (d : List ℚ) : List (List ℚ) :=
  if k = 0 ∨ d = [] then []
  else d.take k :: reshape k (d.drop k)
termination_by d.length
decreasing_by
  rename_i h
  push_neg at h
  simp only [List.length_drop]
  have h0 : 0 < d.length := List.length_pos.mpr h.2
  have h1 : k ≠ 0 := h.1
  omega

/-- The two classes of exception the snapshot assembly can hit: a missing
file (FileNotFoundError, caught per case at valid.py line 220) and an
uncaught exception (ValueError from reshape or a failed index lookup,
IndexError from column selection, numpy shape mismatch), which aborts all
of load. -/
inductive LoadErr where
  | fnf : LoadErr
  | crash : LoadErr
deriving DecidableEq

/-- Column selection vals[:, indicies] (valid.py line 210). -/
def selectCols (idxs : List Nat) (m : List (List ℚ)) : List (List ℚ) :=
  m.map (fun r => idxs.map (fun i => r.getD i 0))

/-- The per-time batch loop of load (valid.py lines 203-215): read each
batch's line file, reshape it into rows of (batch full field count + 1)
columns, select the batch's columns by their index in the batch's canonical
full field list, and hstack onto the composite matrix, carrying the
position column from the first batch only. -/
def assembleBatches (read : String → Option (List ℚ)) :
    List (List String) → Option Mat → Except LoadErr (Option Mat)
  | [], comp => Except.ok comp
  | f :: rest, comp =>
    match read ("line_" ++ make_fields f false ++ ".xy") with
    | none => Except.error LoadErr.fnf
    | some flat =>
      let k := num_fields f false + 1
      if flat.length % k ≠ 0 then Except.error LoadErr.crash
      else
        let vals := reshape k flat
        let indicies := f.map (fun x => 1 + field_index x f false)
        if ¬ indicies.all (fun i => decide (i < k)) then
          Except.error LoadErr.crash
        else
          let svals := selectCols indicies vals
          match comp with
          | none =>
            assembleBatches read rest
              (some (List.zipWith (fun r s => r.getD 0 0 :: s) vals svals))
          | some c =>
            if c.length ≠ svals.length then Except.error LoadErr.crash
            else assembleBatches read rest (some (List.zipWith (· ++ ·) c svals))

/-- Assembly of one (case, time) snapshot from its batch files. -/
def assembleTime (read : String → Option (List ℚ)) (fields : List String) :
    Except LoadErr (Option Mat) :=
  assembleBatches read (field_iter fields false) none

/-- The first requested time matching a discovered time (valid.py line 217):
next(x for x in timelist if _timecheck(x, t)), with none standing for the
StopIteration raised when nothing matches. -/
def nice_time (timelist : List ℚ) (t : ℚ) : Option ℚ :=
  timelist.find? (fun x => timecheck x t)

/-- Python dict assignment results[case][nice_t] = composite, modelled as an
association-list update in insertion order. -/
def dictInsert (k : ℚ) (v : Option Mat) (d : List (ℚ × Option Mat)) :
    List (ℚ × Option Mat) :=
  if d.any (fun p => decide (p.1 = k)) then
    d.map (fun p => if p.1 = k then (k, v) else p)
  else d ++ [(k, v)]

/-- One case's time-directory loop (valid.py lines 198-219): skip discovered
times matching no requested time when a request list was given, assemble
the snapshot, stop the case on a missing file keeping what was already
accumulated, and escalate (Except.error) an uncaught StopIteration or
numpy error. -/
def caseLoop (fields : List String) (timelist : List ℚ)
    (file : ℚ → String → Option (List ℚ)) :
    List ℚ → List (ℚ × Option Mat) → Except Unit (List (ℚ × Option Mat))
  | [], acc => Except.ok acc
  | t :: ts, acc =>
    if timelist ≠ [] ∧ timelist.any (fun x => timecheck x t) = false then
      caseLoop fields timelist file ts acc
    else
      match assembleTime (file t) fields with
      | Except.error LoadErr.fnf => Except.ok acc
      | Except.error LoadErr.crash => Except.error ()
      | Except.ok comp =>
        match nice_time timelist t with
        | none => Except.error ()
        | some nt => caseLoop fields timelist file ts (dictInsert nt comp acc)

/-- A case directory as load sees it: its basename, its discovered time
directories (already parsed as floats, in listing order) and the flat
contents of the files under each time directory (none = missing file). -/
structure Case where
  name : String
  timeDirs : List ℚ
  file : ℚ → String → Option (List ℚ)

/-- The accumulating loop of load (valid.py lines 189-225) over the case
directories: timev collects the stored requested times on top of
set(timelist), and a case whose accumulated snapshot dict is empty is
dropped from the results. -/
def loadGo (fields : List String) (timelist : List ℚ) :
    List Case → Finset ℚ → List (String × List (ℚ × Option Mat)) →
    Option (Finset ℚ × List (String × List (ℚ × Option Mat)))
  | [], timev, results => some (timev, results)
  | c :: cs, timev, results =>
    match caseLoop fields timelist c.file c.timeDirs [] with
    | Except.error _ => none
    | Except.ok entries =>
      loadGo fields timelist cs (timev ∪ (entries.map Prod.fst).toFinset)
        (if entries = [] then results else results ++ [(c.name, entries)])

/-- Model of load (valid.py lines 189-225); none models an uncaught
exception escaping load and aborting the run. -/
def load (cases : List Case) (fields : List String) (timelist : List ℚ) :
    Option (Finset ℚ × List (String × List (ℚ × Option Mat))) :=
  loadGo fields timelist cases timelist.toFinset []

/-- The tiny epsilon 1e-300 flooring the denominator of the relative error
(valid.py line 286). -/
def eps300 : ℚ := 1 / 10 ^ 300

/-- One entry of the elementwise relative error matrix
|comp - test| / (1e-300 + |comp|) (valid.py lines 285-286). -/
def relErrEntry (c t : ℚ) : ℚ := |c - t| / (eps300 + |c|)

/-- diff = np.abs(comp[:, 1:] - test[:, 1:]) / (1e-300 + np.abs(comp[:, 1:])):
the position column (column 0) is excluded via List.tail.  This definition
is total where the source is not: zipWith truncates when the two matrices
have different row or column counts, a situation in which numpy raises a
broadcast ValueError, so every statement about the validator's success
carries SameShape hypotheses restricting it to the shape-matched domain on
which the source is defined. -/
def relDiff (comp test : Mat) : Mat :=
  List.zipWith (fun cr tr => List.zipWith relErrEntry cr.tail tr.tail) comp test

/-- np.linalg.norm(v, ord=np.inf): the maximum absolute entry.  This
definition is total where the source is not: it returns 0 on the empty
list, where np.linalg.norm raises ValueError on a zero-size reduction, so
statements about the validator carry SampleMat hypotheses restricting them
to the non-empty matrices on which the source's reductions are defined. -/
def vecInf (v : List ℚ) : ℚ := v.foldr (fun a b => max |a| b) 0

/-- rel_err_inf (valid.py lines 287-290): the inf-norm across fields of each
spatial point, then the inf-norm across points, reported as a percent. -/
def rel_err_inf (comp test : Mat) : ℚ :=
  100 * vecInf ((relDiff comp test).map vecInf)

/-- np.linalg.norm(v, ord=2) = sqrt(sum of squares), with the square root
kept abstract: the model only ever needs that the chosen sqrt sends 0 to 0,
which every square root implementation does. -/
def vecL2 (sqrt : ℚ → ℚ) (v : List ℚ) : ℚ :=
  sqrt ((v.map (fun x => x ^ 2)).sum)

/-- rel_err_mean (valid.py lines 291-293):
norm(norm(diff, ord=2, axis=1) / diff.shape[1], ord=2, axis=0)
  * 100 / diff.shape[0]. -/
def rel_err_mean (sqrt : ℚ → ℚ) (comp test : Mat) : ℚ :=
  vecL2 sqrt ((relDiff comp test).map
      (fun r => vecL2 sqrt r / (((relDiff comp test).headD []).length : ℚ)))
    * 100 / ((relDiff comp test).length : ℚ)

/-- The per-field error report of validate (valid.py lines 294-301):
ind = fields.index(field); np.linalg.norm(diff[:, ind], ord=inf) * 100. -/
def field_err (fields : List String) (field : String) (comp test : Mat) : ℚ :=
  100 * vecInf ((relDiff comp test).map
    (fun r => r.getD (fields.indexOf field) 0))

/-- Python dict lookup results[case] in validate, as a first-match search of
the results association list. -/
def lookupCase (results : List (String × List (ℚ × Mat))) (c : String) :
    Option (List (ℚ × Mat)) :=
  (results.find? (fun e => decide (e.1 = c))).map Prod.snd

/-- Python dict lookup results[case][time]. -/
def dictGet (d : List (ℚ × Mat)) (t : ℚ) : Option Mat :=
  (d.find? (fun p => decide (p.1 = t))).map Prod.snd

/-- The inner case loop of validate (valid.py lines 279-303) at one
requested time: every non-baseline case with data at the time yields a
report (case, time, rel_err_inf); a case without data at the time is
skipped ("if time not in results[case]: continue"). -/
def validateInner (comp : Mat) (t : ℚ) (base : String) :
    List (String × List (ℚ × Mat)) → List (String × ℚ × ℚ)
  | [] => []
  | (c, d) :: rest =>
    if c = base then validateInner comp t base rest
    else
      match dictGet d t with
      | none => validateInner comp t base rest
      | some test =>
        (c, t, rel_err_inf comp test) :: validateInner comp t base rest

/-- Model of validate (valid.py lines 276-303): for each requested time the
baseline matrix is fetched by plain dict indexing results[base][time] — a
missing baseline case or baseline time is an uncaught KeyError, modelled as
none — and every other case is compared when it has data at that time. -/
def validate (times : List ℚ) (results : List (String × List (ℚ × Mat)))
    (fields : List String) (base : String) :
    Option (List (String × ℚ × ℚ)) :=
  match times with
  | [] => some []
  | t :: ts =>
    match (lookupCase results base).bind (fun d => dictGet d t) with
    | none => none
    | some comp =>
      (validate ts results fields base).map
        (fun rest => validateInner comp t base results ++ rest)

/-- Modelled from the spec: the validator comparison pass as sections 4.5
and 7(d) of the spec describe it — "No error is raised for missing
baseline/candidate data at a given time — it is silently skipped", so a
time at which the baseline itself has no data simply produces no
comparisons. -/
def validateSkipAll (times : List ℚ)
    (results : List (String × List (ℚ × Mat))) (base : String) :
    List (String × ℚ × ℚ) :=
  (times.map (fun t =>
    match (lookupCase results base).bind (fun d => dictGet d t) with
    | none => []
    | some comp => validateInner comp t base results)).flatten

/-- Baseline sample matrix of the numerical scenario in section 8 of the
spec: rows (position, T, p). -/
def base3 : Mat := [[0, 300, 100000], [1, 310, 101000]]

/-- Candidate sample matrix of the same scenario. -/
def cand3 : Mat := [[0, 303, 100000], [1, 310, 102010]]

/-- A well-formed numpy sample matrix as the validator consumes it:
non-empty, rectangular, and carrying a position column plus at least one
field column.  np.linalg.norm with ord=np.inf (valid.py lines 287-301)
raises ValueError on a zero-size reduction, so the source's validate is
defined only on such matrices. -/
def SampleMat (m : Mat) : Prop :=
  m ≠ [] ∧ ∀ r ∈ m, 2 ≤ r.length ∧ r.length = (m.headD []).length

/-- Two matrices numpy subtracts elementwise without broadcasting: equal
row count and equal row length.  comp[:, 1:] - test[:, 1:] (valid.py line
285) raises a broadcast ValueError on any other shape combination (the
degenerate broadcastable shapes aside). -/
def SameShape (a b : Mat) : Prop :=
  a.length = b.length ∧ (a.headD []).length = (b.headD []).length

/-- The skip discipline of the validator once every requested time has
baseline data: validate raises no error, every report names a non-baseline
case with data at a requested time, a (case, time) pair whose data is
missing produces no report, and a pair whose data is present is reported
with its rel_err_inf against the baseline matrix of that time. -/
def ValidateSkipBehaviour (times : List ℚ)
    (results : List (String × List (ℚ × Mat))) (fields : List String)
    (base : String) : Prop :=
  ∃ reps, validate times results fields base = some reps ∧
    (∀ e ∈ reps, e.2.1 ∈ times ∧ e.1 ≠ base ∧
      ∃ d, (e.1, d) ∈ results ∧ (dictGet d e.2.1).isSome) ∧
    (∀ c d, (c, d) ∈ results → c ≠ base → ∀ t ∈ times, dictGet d t = none →
      ∀ x, (c, t, x) ∉ reps) ∧
    (∀ c d, (c, d) ∈ results → c ≠ base → ∀ t ∈ times, ∀ test comp,
      dictGet d t = some test →
      (lookupCase results base).bind (fun d2 => dictGet d2 t) = some comp →
      (c, t, rel_err_inf comp test) ∈ reps)

/-- A case whose single discovered time directory differs from the one
requested time 5000 by 1e-7 (inside the 1e-10 + 1e-10 * 5000 tolerance) and
whose batch files all read as seven zeros. -/
def case8 : Case :=
  ⟨"c", [5000 + 1 / 10 ^ 7], fun _ _ => some [0, 0, 0, 0, 0, 0, 0]⟩

/-- A case with one discovered time directory and every file missing. -/
def case10 : Case := ⟨"c", [0], fun _ _ => none⟩

/-- Concrete results collection with the baseline case present at time 0
and one candidate case with data at time 0. -/
def resW : List (String × List (ℚ × Mat)) :=
  [("SandiaD_LTS", [(0, [[0, 1], [1, 2]])]),
   ("caseA", [(0, [[0, 1], [1, 3]])])]

theorem field_iter_nil (ex : Bool) : field_iter [] ex = [] := by
  rw [field_iter]
  simp

theorem field_iter_cons (fields : List String) (ex : Bool) (h : fields ≠ []) :
    field_iter fields ex = fields.take 10 :: field_iter (fields.drop 10) ex := by
  rw [field_iter]
  simp [h]

theorem field_iter_join (fields : List String) (ex : Bool) :
    (field_iter fields ex).flatten = fields := by
  by_cases h : fields = []
  · subst h
    rw [field_iter_nil]
    rfl
  · rw [field_iter_cons fields ex h]
    rw [List.flatten_cons, field_iter_join (fields.drop 10) ex]
    exact List.take_append_drop 10 fields
termination_by fields.length
decreasing_by
  simp only [List.length_drop]
  have h0 : 0 < fields.length := List.length_pos.mpr h
  omega

theorem mem_field_iter (fields : List String) (ex : Bool) (b : List String)
    (hb : b ∈ field_iter fields ex) : b.length ≤ 10 ∧ b ≠ [] := by
  by_cases h : fields = []
  · subst h
    rw [field_iter_nil] at hb
    exact absurd hb (List.not_mem_nil b)
  · rw [field_iter_cons fields ex h] at hb
    rcases List.mem_cons.mp hb with hbt | hbr
    · subst hbt
      constructor
      · exact List.length_take_le 10 fields
      · intro hnil
        rcases List.take_eq_nil_iff.mp hnil with h10 | hfe
        · exact absurd h10 (by omega)
        · exact h hfe
    · exact mem_field_iter (fields.drop 10) ex b hbr
termination_by fields.length
decreasing_by
  simp only [List.length_drop]
  have h0 : 0 < fields.length := List.length_pos.mpr h
  omega

theorem field_iter_flag (fields : List String) :
    field_iter fields true = field_iter fields false := by
  by_cases h : fields = []
  · subst h
    rw [field_iter_nil, field_iter_nil]
  · rw [field_iter_cons fields true h, field_iter_cons fields false h,
      field_iter_flag (fields.drop 10)]
termination_by fields.length
decreasing_by
  simp only [List.length_drop]
  have h0 : 0 < fields.length := List.length_pos.mpr h
  omega

theorem insertUnique_eq_of_eq (x : String) (zs : List String) :
    insertUnique x (x :: zs) = x :: zs := by
  show (if x = x then x :: zs
    else if x < x then x :: x :: zs else x :: insertUnique x zs) = x :: zs
  rw [if_pos rfl]

theorem insertUnique_eq_of_lt (x z : String) (zs : List String)
    (h1 : x ≠ z) (h2 : x < z) :
    insertUnique x (z :: zs) = x :: z :: zs := by
  show (if x = z then z :: zs
    else if x < z then x :: z :: zs else z :: insertUnique x zs) = x :: z :: zs
  rw [if_neg h1, if_pos h2]

theorem insertUnique_eq_of_gt (x z : String) (zs : List String)
    (h1 : x ≠ z) (h2 : ¬ x < z) :
    insertUnique x (z :: zs) = z :: insertUnique x zs := by
  show (if x = z then z :: zs
    else if x < z then x :: z :: zs else z :: insertUnique x zs) =
      z :: insertUnique x zs
  rw [if_neg h1, if_neg h2]

theorem mem_insertUnique (x y : String) (l : List String) :
    y ∈ insertUnique x l ↔ y = x ∨ y ∈ l := by
  induction l with
  | nil => simp [insertUnique]
  | cons z zs ih =>
    by_cases h1 : x = z
    · subst h1
      rw [insertUnique_eq_of_eq]
      simp only [List.mem_cons]
      tauto
    · by_cases h2 : x < z
      · rw [insertUnique_eq_of_lt x z zs h1 h2]
        simp only [List.mem_cons]
      · rw [insertUnique_eq_of_gt x z zs h1 h2]
        simp only [List.mem_cons, ih]
        tauto

theorem mem_sortedDedup (x : String) (l : List String) :
    x ∈ sortedDedup l ↔ x ∈ l := by
  induction l with
  | nil => simp [sortedDedup]
  | cons z zs ih =>
    show x ∈ insertUnique z (sortedDedup zs) ↔ _
    rw [mem_insertUnique, ih]
    simp [List.mem_cons]

theorem sorted_insertUnique (x : String) (l : List String)
    (hl : l.Sorted (· < ·)) : (insertUnique x l).Sorted (· < ·) := by
  induction l with
  | nil => simp [insertUnique]
  | cons z zs ih =>
    rw [List.sorted_cons] at hl
    obtain ⟨hz, hzs⟩ := hl
    by_cases h1 : x = z
    · subst h1
      rw [insertUnique_eq_of_eq, List.sorted_cons]
      exact ⟨hz, hzs⟩
    · by_cases h2 : x < z
      · rw [insertUnique_eq_of_lt x z zs h1 h2, List.sorted_cons]
        refine ⟨?_, (List.sorted_cons).mpr ⟨hz, hzs⟩⟩
        intro b hb
        rcases List.mem_cons.mp hb with rfl | hbz
        · exact h2
        · exact lt_trans h2 (hz b hbz)
      · rw [insertUnique_eq_of_gt x z zs h1 h2, List.sorted_cons]
        have hzx : z < x := by
          rcases lt_trichotomy x z with ha | ha | ha
          · exact absurd ha h2
          · exact absurd ha h1
          · exact ha
        refine ⟨?_, ih hzs⟩
        intro b hb
        rcases (mem_insertUnique x b zs).mp hb with rfl | hbz
        · exact hzx
        · exact hz b hbz

theorem sorted_sortedDedup (l : List String) :
    (sortedDedup l).Sorted (· < ·) := by
  induction l with
  | nil => simp [sortedDedup]
  | cons z zs ih => exact sorted_insertUnique z (sortedDedup zs) ih

theorem mem_make_full_fields_load (x : String) (fields : List String) :
    x ∈ make_full_fields fields false ↔
      (x ∈ req_fields ∨ x ∈ fields) ∧ x ≠ "U" := by
  have hdef : make_full_fields fields false =
      sortedDedup ((req_fields ++ fields).filter
        (fun x => decide (x ∉ (["U"] : List String)))) := rfl
  rw [hdef, mem_sortedDedup]
  simp only [List.mem_filter, List.mem_append, decide_eq_true_eq,
    List.mem_singleton]

theorem mem_make_full_fields_ex (x : String) (fields : List String) :
    x ∈ make_full_fields fields true ↔ x ∈ req_fields ∨ x ∈ fields := by
  have hdef : make_full_fields fields true =
      sortedDedup ((req_fields ++ fields).filter
        (fun x => decide (x ∉ ([] : List String)))) := rfl
  rw [hdef, mem_sortedDedup]
  simp only [List.mem_filter, List.mem_append, decide_eq_true_eq,
    List.not_mem_nil]
  tauto

theorem sorted_make_full_fields (fields : List String) (ex : Bool) :
    (make_full_fields fields ex).Sorted (· < ·) :=
  sorted_sortedDedup _

theorem field_index_lt (x : String) (f : List String)
    (hx : x ∈ f) (hU : x ≠ "U") :
    1 + field_index x f false < num_fields f false + 1 := by
  have hmem : x ∈ make_full_fields f false :=
    (mem_make_full_fields_load x f).mpr ⟨Or.inr hx, hU⟩
  have hlt := List.indexOf_lt_length.mpr hmem
  unfold field_index num_fields
  omega

theorem reshape_nil (k : Nat) : reshape k [] = [] := by
  rw [reshape]
  simp

theorem reshape_pos (k : Nat) (d : List ℚ) (hk : k ≠ 0) (hd : d ≠ []) :
    reshape k d = d.take k :: reshape k (d.drop k) := by
  rw [reshape]
  simp [hk, hd]

theorem reshape_spec (k : Nat) (hk : 0 < k) :
    ∀ (R : Nat) (d : List ℚ), d.length = R * k →
      (reshape k d).length = R ∧ ∀ r ∈ reshape k d, r.length = k := by
  intro R
  induction R with
  | zero =>
    intro d hd
    have hnil : d = [] := List.eq_nil_of_length_eq_zero (by simpa using hd)
    subst hnil
    simp [reshape_nil]
  | succ n ih =>
    intro d hd
    have hd2 : d.length = n * k + k := by rw [hd, Nat.succ_mul]
    have hdne : d ≠ [] := by
      intro h
      subst h
      simp at hd2
      omega
    rw [reshape_pos k d (by omega) hdne]
    have htake : (d.take k).length = k := by
      rw [List.length_take]
      omega
    have hdrop : (d.drop k).length = n * k := by
      rw [List.length_drop]
      omega
    obtain ⟨h1, h2⟩ := ih (d.drop k) hdrop
    refine ⟨by simp [h1], ?_⟩
    intro r hr
    rcases List.mem_cons.mp hr with rfl | hr2
    · exact htake
    · exact h2 r hr2

theorem mem_zipWith_pair {α β γ : Type} (f : α → β → γ) (l1 : List α)
    (l2 : List β) (z : γ) (hz : z ∈ List.zipWith f l1 l2) :
    ∃ a ∈ l1, ∃ b ∈ l2, z = f a b := by
  induction l1 generalizing l2 with
  | nil => simp at hz
  | cons a as ih =>
    cases l2 with
    | nil => simp at hz
    | cons b bs =>
      rw [List.zipWith_cons_cons] at hz
      rcases List.mem_cons.mp hz with rfl | hz2
      · exact ⟨a, by simp, b, by simp, rfl⟩
      · obtain ⟨a2, ha, b2, hb, hres⟩ := ih bs hz2
        exact ⟨a2, by simp [ha], b2, by simp [hb], hres⟩

theorem zipWith_append_map_head (c svals : List (List ℚ))
    (hne : ∀ r ∈ c, r ≠ []) (hlen : c.length = svals.length) :
    (List.zipWith (fun a b => a ++ b) c svals).map (fun r => r.getD 0 0) =
      c.map (fun r => r.getD 0 0) := by
  induction c generalizing svals with
  | nil => simp
  | cons a as ih =>
    cases svals with
    | nil => simp at hlen
    | cons b bs =>
      rw [List.zipWith_cons_cons, List.map_cons, List.map_cons]
      have ha : a ≠ [] := hne a (by simp)
      have hhead : (a ++ b).getD 0 0 = a.getD 0 0 := by
        cases a with
        | nil => exact absurd rfl ha
        | cons x xs => simp
      rw [hhead, ih bs (fun r hr => hne r (by simp [hr])) (by simpa using hlen)]

theorem zipWith_cons_map_head (vals svals : List (List ℚ))
    (hlen : vals.length = svals.length) :
    (List.zipWith (fun r s => r.getD 0 0 :: s) vals svals).map
        (fun r => r.getD 0 0) =
      vals.map (fun r => r.getD 0 0) := by
  induction vals generalizing svals with
  | nil => simp
  | cons a as ih =>
    cases svals with
    | nil => simp at hlen
    | cons b bs =>
      rw [List.zipWith_cons_cons, List.map_cons, List.map_cons]
      simp only [List.getD_cons_zero]
      rw [ih bs (by simpa using hlen)]

theorem find?_first (p : ℚ → Bool) (l : List ℚ) (x : ℚ)
    (h : l.find? p = some x) :
    ∃ i, l.get? i = some x ∧ p x = true ∧
      ∀ j, j < i → ∀ y, l.get? j = some y → p y = false := by
  induction l with
  | nil => simp at h
  | cons a as ih =>
    by_cases hpa : p a = true
    · rw [List.find?_cons_of_pos _ hpa] at h
      have hxa : x = a := by
        cases h
        rfl
      subst hxa
      refine ⟨0, by simp, hpa, ?_⟩
      intro j hj
      omega
    · rw [List.find?_cons_of_neg _ (by simpa using hpa)] at h
      obtain ⟨i, hi, hpx, hbefore⟩ := ih h
      refine ⟨i + 1, by simpa using hi, hpx, ?_⟩
      intro j hj y hy
      cases j with
      | zero =>
        simp at hy
        subst hy
        simpa using hpa
      | succ j2 =>
        exact hbefore j2 (by omega) y (by simpa using hy)

theorem mem_dictInsert_keys (k : ℚ) (v : Option Mat)
    (d : List (ℚ × Option Mat)) (p : ℚ × Option Mat)
    (hp : p ∈ dictInsert k v d) : p.1 = k ∨ ∃ q ∈ d, q.1 = p.1 := by
  unfold dictInsert at hp
  by_cases h : d.any (fun q => decide (q.1 = k)) = true
  · rw [if_pos h] at hp
    rcases List.mem_map.mp hp with ⟨q, hq, hqe⟩
    by_cases hqk : q.1 = k
    · rw [if_pos hqk] at hqe
      subst hqe
      exact Or.inl rfl
    · rw [if_neg hqk] at hqe
      subst hqe
      exact Or.inr ⟨q, hq, rfl⟩
  · rw [if_neg h] at hp
    rcases List.mem_append.mp hp with hq | hq
    · exact Or.inr ⟨p, hq, rfl⟩
    · left
      simp at hq
      rw [hq]

theorem caseLoop_nil (fields : List String) (timelist : List ℚ)
    (file : ℚ → String → Option (List ℚ)) (acc : List (ℚ × Option Mat)) :
    caseLoop fields timelist file [] acc = Except.ok acc := rfl

theorem caseLoop_skip (fields : List String) (timelist : List ℚ)
    (file : ℚ → String → Option (List ℚ)) (t : ℚ) (ts : List ℚ)
    (acc : List (ℚ × Option Mat)) (hne : timelist ≠ [])
    (hno : timelist.any (fun x => timecheck x t) = false) :
    caseLoop fields timelist file (t :: ts) acc =
      caseLoop fields timelist file ts acc := by
  simp only [caseLoop]
  rw [if_pos ⟨hne, hno⟩]

theorem caseLoop_fnf (fields : List String) (timelist : List ℚ)
    (file : ℚ → String → Option (List ℚ)) (t : ℚ) (ts : List ℚ)
    (acc : List (ℚ × Option Mat))
    (hcond : ¬(timelist ≠ [] ∧ timelist.any (fun x => timecheck x t) = false))
    (hassem : assembleTime (file t) fields = Except.error LoadErr.fnf) :
    caseLoop fields timelist file (t :: ts) acc = Except.ok acc := by
  simp only [caseLoop]
  rw [if_neg hcond, hassem]

theorem caseLoop_crash (fields : List String) (timelist : List ℚ)
    (file : ℚ → String → Option (List ℚ)) (t : ℚ) (ts : List ℚ)
    (acc : List (ℚ × Option Mat))
    (hcond : ¬(timelist ≠ [] ∧ timelist.any (fun x => timecheck x t) = false))
    (hassem : assembleTime (file t) fields = Except.error LoadErr.crash) :
    caseLoop fields timelist file (t :: ts) acc = Except.error () := by
  simp only [caseLoop]
  rw [if_neg hcond, hassem]

theorem caseLoop_stop (fields : List String) (timelist : List ℚ)
    (file : ℚ → String → Option (List ℚ)) (t : ℚ) (ts : List ℚ)
    (acc : List (ℚ × Option Mat)) (comp : Option Mat)
    (hcond : ¬(timelist ≠ [] ∧ timelist.any (fun x => timecheck x t) = false))
    (hassem : assembleTime (file t) fields = Except.ok comp)
    (hnice : nice_time timelist t = none) :
    caseLoop fields timelist file (t :: ts) acc = Except.error () := by
  simp only [caseLoop]
  rw [if_neg hcond, hassem, hnice]

theorem caseLoop_step (fields : List String) (timelist : List ℚ)
    (file : ℚ → String → Option (List ℚ)) (t : ℚ) (ts : List ℚ)
    (acc : List (ℚ × Option Mat)) (comp : Option Mat) (nt : ℚ)
    (hassem : assembleTime (file t) fields = Except.ok comp)
    (hnice : nice_time timelist t = some nt) :
    caseLoop fields timelist file (t :: ts) acc =
      caseLoop fields timelist file ts (dictInsert nt comp acc) := by
  have hfind : timelist.find? (fun x => timecheck x t) = some nt := hnice
  have hmem : nt ∈ timelist := List.mem_of_find?_eq_some hfind
  have hp : timecheck nt t = true := by
    have h2 := List.find?_some hfind
    simpa using h2
  have hany : timelist.any (fun x => timecheck x t) = true :=
    List.any_eq_true.mpr ⟨nt, hmem, hp⟩
  have hcond :
      ¬(timelist ≠ [] ∧ timelist.any (fun x => timecheck x t) = false) := by
    intro hc
    rw [hany] at hc
    cases hc.2
  simp only [caseLoop]
  rw [if_neg hcond, hassem, hnice]

theorem caseLoop_keys (fields : List String) (timelist : List ℚ)
    (file : ℚ → String → Option (List ℚ)) :
    ∀ (ts : List ℚ) (acc entries : List (ℚ × Option Mat)),
      caseLoop fields timelist file ts acc = Except.ok entries →
      (∀ p ∈ acc, p.1 ∈ timelist) → ∀ p ∈ entries, p.1 ∈ timelist := by
  intro ts
  induction ts with
  | nil =>
    intro acc entries hok hacc
    rw [caseLoop_nil] at hok
    cases hok
    exact hacc
  | cons t ts2 ih =>
    intro acc entries hok hacc
    by_cases hcond :
        timelist ≠ [] ∧ timelist.any (fun x => timecheck x t) = false
    · rw [caseLoop_skip fields timelist file t ts2 acc hcond.1 hcond.2] at hok
      exact ih acc entries hok hacc
    · cases hassem : assembleTime (file t) fields with
      | error e =>
        cases e with
        | fnf =>
          rw [caseLoop_fnf fields timelist file t ts2 acc hcond hassem] at hok
          cases hok
          exact hacc
        | crash =>
          rw [caseLoop_crash fields timelist file t ts2 acc hcond hassem] at hok
          cases hok
      | ok comp =>
        cases hnice : nice_time timelist t with
        | none =>
          rw [caseLoop_stop fields timelist file t ts2 acc comp hcond hassem
            hnice] at hok
          cases hok
        | some nt =>
          rw [caseLoop_step fields timelist file t ts2 acc comp nt hassem
            hnice] at hok
          refine ih _ entries hok ?_
          intro p hp
          rcases mem_dictInsert_keys nt comp acc p hp with h1 | ⟨q, hq, hqe⟩
          · rw [h1]
            exact List.mem_of_find?_eq_some hnice
          · rw [← hqe]
            exact hacc q hq

theorem loadGo_nil (fields : List String) (timelist : List ℚ)
    (timev : Finset ℚ) (results : List (String × List (ℚ × Option Mat))) :
    loadGo fields timelist [] timev results = some (timev, results) := rfl

theorem loadGo_cons_ok (fields : List String) (timelist : List ℚ) (c : Case)
    (cases : List Case) (timev : Finset ℚ)
    (results : List (String × List (ℚ × Option Mat)))
    (entries : List (ℚ × Option Mat))
    (h : caseLoop fields timelist c.file c.timeDirs [] = Except.ok entries) :
    loadGo fields timelist (c :: cases) timev results =
      loadGo fields timelist cases (timev ∪ (entries.map Prod.fst).toFinset)
        (if entries = [] then results else results ++ [(c.name, entries)]) := by
  simp only [loadGo, h]

theorem loadGo_cons_err (fields : List String) (timelist : List ℚ) (c : Case)
    (cases : List Case) (timev : Finset ℚ)
    (results : List (String × List (ℚ × Option Mat)))
    (h : caseLoop fields timelist c.file c.timeDirs [] = Except.error ()) :
    loadGo fields timelist (c :: cases) timev results = none := by
  simp only [loadGo, h]

theorem loadGo_spec (fields : List String) (timelist : List ℚ) :
    ∀ (cases : List Case) (timev : Finset ℚ)
      (results : List (String × List (ℚ × Option Mat)))
      (tv : Finset ℚ) (res : List (String × List (ℚ × Option Mat))),
      timev = timelist.toFinset → (∀ e ∈ results, e.2 ≠ []) →
      loadGo fields timelist cases timev results = some (tv, res) →
      tv = timelist.toFinset ∧ ∀ e ∈ res, e.2 ≠ [] := by
  intro cases
  induction cases with
  | nil =>
    intro timev results tv res hinv1 hinv2 hok
    rw [loadGo_nil] at hok
    cases hok
    exact ⟨hinv1, hinv2⟩
  | cons c cs ih =>
    intro timev results tv res hinv1 hinv2 hok
    cases hcl : caseLoop fields timelist c.file c.timeDirs [] with
    | error e =>
      rw [loadGo_cons_err fields timelist c cs timev results hcl] at hok
      cases hok
    | ok entries =>
      rw [loadGo_cons_ok fields timelist c cs timev results entries hcl]
        at hok
      have hkeys : ∀ p ∈ entries, p.1 ∈ timelist :=
        caseLoop_keys fields timelist c.file c.timeDirs [] entries hcl
          (by intro p hp; simp at hp)
      have hsub : (entries.map Prod.fst).toFinset ⊆ timelist.toFinset := by
        intro x hx
        rw [List.mem_toFinset] at hx ⊢
        rcases List.mem_map.mp hx with ⟨p, hp, hpe⟩
        rw [← hpe]
        exact hkeys p hp
      refine ih _ _ tv res ?_ ?_ hok
      · rw [hinv1]
        exact Finset.union_eq_left.mpr hsub
      · intro e he
        by_cases hent : entries = []
        · rw [if_pos hent] at he
          exact hinv2 e he
        · rw [if_neg hent] at he
          rcases List.mem_append.mp he with h1 | h1
          · exact hinv2 e h1
          · have : e = (c.name, entries) := by simpa using h1
            rw [this]
            exact hent

theorem assembleBatches_first (read : String → Option (List ℚ))
    (f : List String) (rest : List (List String)) (d : List ℚ)
    (hread : read ("line_" ++ make_fields f false ++ ".xy") = some d)
    (hmod : d.length % (num_fields f false + 1) = 0)
    (hidx : (f.map (fun x => 1 + field_index x f false)).all
      (fun i => decide (i < num_fields f false + 1)) = true) :
    assembleBatches read (f :: rest) none =
      assembleBatches read rest
        (some (List.zipWith (fun r s => r.getD 0 0 :: s)
          (reshape (num_fields f false + 1) d)
          (selectCols (f.map (fun x => 1 + field_index x f false))
            (reshape (num_fields f false + 1) d)))) := by
  simp only [assembleBatches, hread]
  rw [if_neg (by simp [hmod]), if_neg (by simp [hidx])]

theorem assembleBatches_next (read : String → Option (List ℚ))
    (f : List String) (rest : List (List String)) (c : Mat) (d : List ℚ)
    (hread : read ("line_" ++ make_fields f false ++ ".xy") = some d)
    (hmod : d.length % (num_fields f false + 1) = 0)
    (hidx : (f.map (fun x => 1 + field_index x f false)).all
      (fun i => decide (i < num_fields f false + 1)) = true)
    (hlen : c.length = (selectCols (f.map (fun x => 1 + field_index x f false))
      (reshape (num_fields f false + 1) d)).length) :
    assembleBatches read (f :: rest) (some c) =
      assembleBatches read rest
        (some (List.zipWith (fun a b => a ++ b) c
          (selectCols (f.map (fun x => 1 + field_index x f false))
            (reshape (num_fields f false + 1) d)))) := by
  simp only [assembleBatches, hread]
  rw [if_neg (by simp [hmod]), if_neg (by simp [hidx]),
    if_neg (by simp [hlen])]

theorem assembleBatches_dims (read : String → Option (List ℚ)) (R : Nat) :
    ∀ (batches : List (List String)) (L : Nat) (c : Mat), 0 < L →
      c.length = R → (∀ r ∈ c, r.length = L) →
      (∀ f ∈ batches, ∀ x ∈ f, x ≠ "U") →
      (∀ f ∈ batches, ∃ d,
        read ("line_" ++ make_fields f false ++ ".xy") = some d ∧
        d.length = R * (num_fields f false + 1)) →
      ∃ m, assembleBatches read batches (some c) = Except.ok (some m) ∧
        m.length = R ∧
        (∀ r ∈ m, r.length = L + (batches.map List.length).sum) ∧
        m.map (fun r => r.getD 0 0) = c.map (fun r => r.getD 0 0) := by
  intro batches
  induction batches with
  | nil =>
    intro L c hL hcR hcL hU hfiles
    refine ⟨c, rfl, hcR, ?_, rfl⟩
    intro r hr
    simpa using hcL r hr
  | cons f rest ih =>
    intro L c hL hcR hcL hU hfiles
    obtain ⟨d, hread, hlen⟩ := hfiles f (by simp)
    have hk : 0 < num_fields f false + 1 := Nat.succ_pos _
    have hmod : d.length % (num_fields f false + 1) = 0 := by
      rw [hlen]
      exact Nat.mul_mod_left _ _
    have hidx : (f.map (fun x => 1 + field_index x f false)).all
        (fun i => decide (i < num_fields f false + 1)) = true := by
      rw [List.all_eq_true]
      intro i hi
      rcases List.mem_map.mp hi with ⟨x, hx, hxe⟩
      rw [decide_eq_true_eq, ← hxe]
      exact field_index_lt x f hx (hU f (by simp) x hx)
    obtain ⟨hvl, hvr⟩ := reshape_spec (num_fields f false + 1) hk R d hlen
    have hsl : (selectCols (f.map (fun x => 1 + field_index x f false))
        (reshape (num_fields f false + 1) d)).length = R := by
      rw [selectCols, List.length_map, hvl]
    have hsr : ∀ r ∈ selectCols (f.map (fun x => 1 + field_index x f false))
        (reshape (num_fields f false + 1) d), r.length = f.length := by
      intro r hr
      rw [selectCols] at hr
      rcases List.mem_map.mp hr with ⟨v, hv, hve⟩
      rw [← hve, List.length_map, List.length_map]
    rw [assembleBatches_next read f rest c d hread hmod hidx
      (by rw [hsl, hcR])]
    have hcl2 : (List.zipWith (fun a b => a ++ b) c
        (selectCols (f.map (fun x => 1 + field_index x f false))
          (reshape (num_fields f false + 1) d))).length = R := by
      rw [List.length_zipWith, hcR, hsl, Nat.min_self]
    have hcr2 : ∀ r ∈ List.zipWith (fun a b => a ++ b) c
        (selectCols (f.map (fun x => 1 + field_index x f false))
          (reshape (num_fields f false + 1) d)), r.length = L + f.length := by
      intro r hr
      obtain ⟨a, ha, b, hb, hre⟩ := mem_zipWith_pair _ c _ r hr
      rw [hre, List.length_append, hcL a ha, hsr b hb]
    obtain ⟨m, hm, hmR, hmrow, hmhead⟩ := ih (L + f.length) _ (by omega)
      hcl2 hcr2 (fun f2 hf2 => hU f2 (by simp [hf2]))
      (fun f2 hf2 => hfiles f2 (by simp [hf2]))
    refine ⟨m, hm, hmR, ?_, ?_⟩
    · intro r hr
      rw [hmrow r hr, List.map_cons, List.sum_cons]
      omega
    · rw [hmhead]
      refine zipWith_append_map_head c _ ?_ (by rw [hcR, hsl])
      intro r hrc
      have := hcL r hrc
      intro hnil
      rw [hnil] at this
      simp at this
      omega

theorem assembleTime_dims (read : String → Option (List ℚ))
    (fields : List String) (R : Nat) (hne : fields ≠ []) (hU : "U" ∉ fields)
    (hfiles : ∀ f ∈ field_iter fields false, ∃ d,
      read ("line_" ++ make_fields f false ++ ".xy") = some d ∧
      d.length = R * (num_fields f false + 1)) :
    ∃ m, assembleTime read fields = Except.ok (some m) ∧
      m.length = R ∧ (∀ r ∈ m, r.length = 1 + fields.length) ∧
      ∀ f1 d1, (field_iter fields false).head? = some f1 →
        read ("line_" ++ make_fields f1 false ++ ".xy") = some d1 →
        m.map (fun r => r.getD 0 0) =
          (reshape (num_fields f1 false + 1) d1).map (fun r => r.getD 0 0) := by
  have hcons : field_iter fields false =
      fields.take 10 :: field_iter (fields.drop 10) false :=
    field_iter_cons fields false hne
  have hmemall : ∀ f ∈ field_iter fields false, ∀ x ∈ f, x ∈ fields := by
    intro f hf x hx
    have hx2 : x ∈ (field_iter fields false).flatten :=
      List.mem_flatten.mpr ⟨f, hf, hx⟩
    rwa [field_iter_join] at hx2
  have hU2 : ∀ f ∈ field_iter fields false, ∀ x ∈ f, x ≠ "U" := by
    intro f hf x hx he
    exact hU (he ▸ hmemall f hf x hx)
  obtain ⟨d, hread, hlen⟩ := hfiles (fields.take 10) (by rw [hcons]; simp)
  have hf1mem : fields.take 10 ∈ field_iter fields false := by
    rw [hcons]
    simp
  have hk : 0 < num_fields (fields.take 10) false + 1 := Nat.succ_pos _
  have hmod : d.length % (num_fields (fields.take 10) false + 1) = 0 := by
    rw [hlen]
    exact Nat.mul_mod_left _ _
  have hidx : ((fields.take 10).map
      (fun x => 1 + field_index x (fields.take 10) false)).all
      (fun i => decide (i < num_fields (fields.take 10) false + 1)) = true := by
    rw [List.all_eq_true]
    intro i hi
    rcases List.mem_map.mp hi with ⟨x, hx, hxe⟩
    rw [decide_eq_true_eq, ← hxe]
    exact field_index_lt x (fields.take 10) hx (hU2 _ hf1mem x hx)
  obtain ⟨hvl, hvr⟩ :=
    reshape_spec (num_fields (fields.take 10) false + 1) hk R d hlen
  have hsl : (selectCols ((fields.take 10).map
      (fun x => 1 + field_index x (fields.take 10) false))
      (reshape (num_fields (fields.take 10) false + 1) d)).length = R := by
    rw [selectCols, List.length_map, hvl]
  have hsr : ∀ r ∈ selectCols ((fields.take 10).map
      (fun x => 1 + field_index x (fields.take 10) false))
      (reshape (num_fields (fields.take 10) false + 1) d),
      r.length = (fields.take 10).length := by
    intro r hr
    rw [selectCols] at hr
    rcases List.mem_map.mp hr with ⟨v, hv, hve⟩
    rw [← hve, List.length_map, List.length_map]
  have hc0R : (List.zipWith (fun r s => r.getD 0 0 :: s)
      (reshape (num_fields (fields.take 10) false + 1) d)
      (selectCols ((fields.take 10).map
        (fun x => 1 + field_index x (fields.take 10) false))
        (reshape (num_fields (fields.take 10) false + 1) d))).length = R := by
    rw [List.length_zipWith, hvl, hsl, Nat.min_self]
  have hc0L : ∀ r ∈ List.zipWith (fun r s => r.getD 0 0 :: s)
      (reshape (num_fields (fields.take 10) false + 1) d)
      (selectCols ((fields.take 10).map
        (fun x => 1 + field_index x (fields.take 10) false))
        (reshape (num_fields (fields.take 10) false + 1) d)),
      r.length = 1 + (fields.take 10).length := by
    intro r hr
    obtain ⟨a, ha, b, hb, hre⟩ := mem_zipWith_pair _ _ _ r hr
    rw [hre, List.length_cons, hsr b hb]
    omega
  obtain ⟨m, hm, hmR, hmrow, hmhead⟩ := assembleBatches_dims read R
    (field_iter (fields.drop 10) false) (1 + (fields.take 10).length) _
    (by omega) hc0R hc0L
    (fun f2 hf2 => hU2 f2 (by rw [hcons]; simp [hf2]))
    (fun f2 hf2 => hfiles f2 (by rw [hcons]; simp [hf2]))
  have hsum : (fields.take 10).length +
      ((field_iter (fields.drop 10) false).map List.length).sum =
      fields.length := by
    have h3 : (field_iter fields false).flatten.length = fields.length := by
      rw [field_iter_join]
    rw [List.length_flatten, hcons, List.map_cons, List.sum_cons] at h3
    exact h3
  refine ⟨m, ?_, hmR, ?_, ?_⟩
  · unfold assembleTime
    rw [hcons,
      assembleBatches_first read (fields.take 10) _ d hread hmod hidx]
    exact hm
  · intro r hr
    rw [hmrow r hr]
    omega
  · intro f1 d1 hhead hread1
    rw [hcons] at hhead
    have hf1 : f1 = fields.take 10 := by
      simpa using hhead.symm
    subst hf1
    rw [hread] at hread1
    have hd1 : d1 = d := by
      cases hread1
      rfl
    subst hd1
    rw [hmhead]
    refine zipWith_cons_map_head _ _ (by rw [hvl, hsl])

theorem validateInner_nil (comp : Mat) (t : ℚ) (base : String) :
    validateInner comp t base [] = [] := rfl

theorem validateInner_base (comp : Mat) (t : ℚ) (base c : String)
    (d : List (ℚ × Mat)) (rest : List (String × List (ℚ × Mat)))
    (hc : c = base) :
    validateInner comp t base ((c, d) :: rest) =
      validateInner comp t base rest := by
  simp only [validateInner]
  rw [if_pos hc]

theorem validateInner_skip (comp : Mat) (t : ℚ) (base c : String)
    (d : List (ℚ × Mat)) (rest : List (String × List (ℚ × Mat)))
    (hc : ¬ c = base) (hd : dictGet d t = none) :
    validateInner comp t base ((c, d) :: rest) =
      validateInner comp t base rest := by
  simp only [validateInner]
  rw [if_neg hc, hd]

theorem validateInner_report (comp : Mat) (t : ℚ) (base c : String)
    (d : List (ℚ × Mat)) (rest : List (String × List (ℚ × Mat))) (test : Mat)
    (hc : ¬ c = base) (hd : dictGet d t = some test) :
    validateInner comp t base ((c, d) :: rest) =
      (c, t, rel_err_inf comp test) :: validateInner comp t base rest := by
  simp only [validateInner]
  rw [if_neg hc, hd]

theorem mem_validateInner (comp : Mat) (t : ℚ) (base : String) :
    ∀ (l : List (String × List (ℚ × Mat))) (e : String × ℚ × ℚ),
      e ∈ validateInner comp t base l →
      e.2.1 = t ∧ e.1 ≠ base ∧ ∃ d, (e.1, d) ∈ l ∧
        ∃ test, dictGet d t = some test ∧ e.2.2 = rel_err_inf comp test := by
  intro l
  induction l with
  | nil =>
    intro e he
    rw [validateInner_nil] at he
    simp at he
  | cons p rest ih =>
    obtain ⟨c, d⟩ := p
    intro e he
    by_cases hc : c = base
    · rw [validateInner_base comp t base c d rest hc] at he
      obtain ⟨h1, h2, d2, hd2, test, htest, hval⟩ := ih e he
      exact ⟨h1, h2, d2, by simp [hd2], test, htest, hval⟩
    · cases hd : dictGet d t with
      | none =>
        rw [validateInner_skip comp t base c d rest hc hd] at he
        obtain ⟨h1, h2, d2, hd2, test, htest, hval⟩ := ih e he
        exact ⟨h1, h2, d2, by simp [hd2], test, htest, hval⟩
      | some test =>
        rw [validateInner_report comp t base c d rest test hc hd] at he
        rcases List.mem_cons.mp he with rfl | he2
        · exact ⟨rfl, hc, d, by simp, test, hd, rfl⟩
        · obtain ⟨h1, h2, d2, hd2, test2, htest2, hval2⟩ := ih e he2
          exact ⟨h1, h2, d2, by simp [hd2], test2, htest2, hval2⟩

theorem validateInner_reports (comp : Mat) (t : ℚ) (base : String) :
    ∀ (l : List (String × List (ℚ × Mat))) (c : String)
      (d : List (ℚ × Mat)) (test : Mat),
      (c, d) ∈ l → c ≠ base → dictGet d t = some test →
      (c, t, rel_err_inf comp test) ∈ validateInner comp t base l := by
  intro l
  induction l with
  | nil =>
    intro c d test hcd
    simp at hcd
  | cons p rest ih =>
    obtain ⟨c0, d0⟩ := p
    intro c d test hcd hc htest
    rcases List.mem_cons.mp hcd with heq | hcd2
    · have hc0 : c0 = c := congrArg Prod.fst heq.symm
      have hd0 : d0 = d := congrArg Prod.snd heq.symm
      subst hc0
      subst hd0
      rw [validateInner_report comp t base c0 d0 rest test hc htest]
      simp
    · by_cases hc0 : c0 = base
      · rw [validateInner_base comp t base c0 d0 rest hc0]
        exact ih c d test hcd2 hc htest
      · cases hd0 : dictGet d0 t with
        | none =>
          rw [validateInner_skip comp t base c0 d0 rest hc0 hd0]
          exact ih c d test hcd2 hc htest
        | some test0 =>
          rw [validateInner_report comp t base c0 d0 rest test0 hc0 hd0]
          exact List.mem_cons.mpr (Or.inr (ih c d test hcd2 hc htest))

theorem assoc_unique (l : List (String × List (ℚ × Mat))) (c : String)
    (d d2 : List (ℚ × Mat)) (hnodup : (l.map Prod.fst).Nodup)
    (h1 : (c, d) ∈ l) (h2 : (c, d2) ∈ l) : d = d2 := by
  induction l with
  | nil => simp at h1
  | cons p rest ih =>
    rw [List.map_cons, List.nodup_cons] at hnodup
    rcases List.mem_cons.mp h1 with he1 | h1r
    · rcases List.mem_cons.mp h2 with he2 | h2r
      · rw [← he1] at he2
        exact congrArg Prod.snd he2.symm
      · exfalso
        apply hnodup.1
        rw [← he1]
        exact List.mem_map.mpr ⟨(c, d2), h2r, rfl⟩
    · rcases List.mem_cons.mp h2 with he2 | h2r
      · exfalso
        apply hnodup.1
        rw [← he2]
        exact List.mem_map.mpr ⟨(c, d), h1r, rfl⟩
      · exact ih hnodup.2 h1r h2r

theorem validate_nil (results : List (String × List (ℚ × Mat)))
    (fields : List String) (base : String) :
    validate [] results fields base = some [] := rfl

theorem validate_cons_none (t : ℚ) (ts : List ℚ)
    (results : List (String × List (ℚ × Mat))) (fields : List String)
    (base : String)
    (h : (lookupCase results base).bind (fun d => dictGet d t) = none) :
    validate (t :: ts) results fields base = none := by
  simp only [validate, h]

theorem validate_cons_some (t : ℚ) (ts : List ℚ)
    (results : List (String × List (ℚ × Mat))) (fields : List String)
    (base : String) (comp : Mat)
    (h : (lookupCase results base).bind (fun d => dictGet d t) = some comp) :
    validate (t :: ts) results fields base =
      (validate ts results fields base).map
        (fun rest => validateInner comp t base results ++ rest) := by
  simp only [validate, h]

theorem validateSkipAll_nil (results : List (String × List (ℚ × Mat)))
    (base : String) : validateSkipAll [] results base = [] := rfl

theorem validateSkipAll_cons_none (t : ℚ) (ts : List ℚ)
    (results : List (String × List (ℚ × Mat))) (base : String)
    (h : (lookupCase results base).bind (fun d => dictGet d t) = none) :
    validateSkipAll (t :: ts) results base =
      validateSkipAll ts results base := by
  simp only [validateSkipAll, List.map_cons, List.flatten_cons, h]
  simp

theorem validateSkipAll_cons_some (t : ℚ) (ts : List ℚ)
    (results : List (String × List (ℚ × Mat))) (base : String) (comp : Mat)
    (h : (lookupCase results base).bind (fun d => dictGet d t) = some comp) :
    validateSkipAll (t :: ts) results base =
      validateInner comp t base results ++ validateSkipAll ts results base := by
  simp only [validateSkipAll, List.map_cons, List.flatten_cons, h]

theorem validate_ok (times : List ℚ)
    (results : List (String × List (ℚ × Mat))) (fields : List String)
    (base : String)
    (hbase : ∀ t ∈ times,
      ((lookupCase results base).bind (fun d => dictGet d t)).isSome) :
    validate times results fields base =
      some (validateSkipAll times results base) := by
  induction times with
  | nil => rw [validate_nil, validateSkipAll_nil]
  | cons t ts ih =>
    obtain ⟨comp, hcomp⟩ :=
      Option.isSome_iff_exists.mp (hbase t (by simp))
    rw [validate_cons_some t ts results fields base comp hcomp,
      validateSkipAll_cons_some t ts results base comp hcomp,
      ih (fun t2 ht2 => hbase t2 (by simp [ht2]))]
    rfl

theorem validate_none_of_missing (times : List ℚ)
    (results : List (String × List (ℚ × Mat))) (fields : List String)
    (base : String) (t : ℚ) (ht : t ∈ times)
    (hmiss : (lookupCase results base).bind (fun d => dictGet d t) = none) :
    validate times results fields base = none := by
  induction times with
  | nil => simp at ht
  | cons t0 ts ih =>
    cases hl : (lookupCase results base).bind (fun d => dictGet d t0) with
    | none => exact validate_cons_none t0 ts results fields base hl
    | some comp =>
      rcases List.mem_cons.mp ht with rfl | ht2
      · rw [hl] at hmiss
        cases hmiss
      · rw [validate_cons_some t0 ts results fields base comp hl,
          ih ht2]
        rfl

theorem mem_validateSkipAll (times : List ℚ)
    (results : List (String × List (ℚ × Mat))) (base : String)
    (e : String × ℚ × ℚ) :
    e ∈ validateSkipAll times results base ↔
      ∃ t ∈ times, ∃ comp,
        (lookupCase results base).bind (fun d => dictGet d t) = some comp ∧
        e ∈ validateInner comp t base results := by
  induction times with
  | nil =>
    rw [validateSkipAll_nil]
    simp
  | cons t0 ts ih =>
    cases hl : (lookupCase results base).bind (fun d => dictGet d t0) with
    | none =>
      rw [validateSkipAll_cons_none t0 ts results base hl, ih]
      constructor
      · rintro ⟨t, ht, comp, hcomp, he⟩
        exact ⟨t, by simp [ht], comp, hcomp, he⟩
      · rintro ⟨t, ht, comp, hcomp, he⟩
        rcases List.mem_cons.mp ht with rfl | ht2
        · rw [hl] at hcomp
          cases hcomp
        · exact ⟨t, ht2, comp, hcomp, he⟩
    | some comp0 =>
      rw [validateSkipAll_cons_some t0 ts results base comp0 hl]
      constructor
      · intro he
        rcases List.mem_append.mp he with he1 | he2
        · exact ⟨t0, by simp, comp0, hl, he1⟩
        · obtain ⟨t, ht, comp, hcomp, he3⟩ := ih.mp he2
          exact ⟨t, by simp [ht], comp, hcomp, he3⟩
      · rintro ⟨t, ht, comp, hcomp, he3⟩
        rcases List.mem_cons.mp ht with rfl | ht2
        · rw [hl] at hcomp
          have : comp = comp0 := by
            cases hcomp
            rfl
          subst this
          exact List.mem_append.mpr (Or.inl he3)
        · exact List.mem_append.mpr (Or.inr (ih.mpr ⟨t, ht2, comp, hcomp, he3⟩))

theorem relErrEntry_self (c : ℚ) : relErrEntry c c = 0 := by
  unfold relErrEntry
  rw [sub_self, abs_zero, zero_div]

theorem relDiff_self (m : Mat) :
    relDiff m m = m.map (fun r => r.tail.map (fun x => relErrEntry x x)) := by
  unfold relDiff
  simp only [List.zipWith_same]

theorem relDiff_self_zero (m : Mat) (r : List ℚ) (hr : r ∈ relDiff m m)
    (x : ℚ) (hx : x ∈ r) : x = 0 := by
  rw [relDiff_self] at hr
  rcases List.mem_map.mp hr with ⟨a, ha, hae⟩
  rw [← hae] at hx
  rcases List.mem_map.mp hx with ⟨y, hy, hye⟩
  rw [← hye, relErrEntry_self]

theorem vecInf_zero (v : List ℚ) (hv : ∀ x ∈ v, x = 0) : vecInf v = 0 := by
  induction v with
  | nil => rfl
  | cons a as ih =>
    have ha : a = 0 := hv a (by simp)
    have h2 : vecInf as = 0 := ih (fun x hx => hv x (by simp [hx]))
    show max |a| (vecInf as) = 0
    rw [ha, h2, abs_zero, max_self]

theorem sumsq_zero (v : List ℚ) (hv : ∀ x ∈ v, x = 0) :
    (v.map (fun x => x ^ 2)).sum = 0 := by
  induction v with
  | nil => rfl
  | cons a as ih =>
    have ha : a = 0 := hv a (by simp)
    have h2 := ih (fun x hx => hv x (by simp [hx]))
    rw [List.map_cons, List.sum_cons, ha, h2]
    norm_num

/-- C2 counterexample: for the requested field list ["T"] the batches of
the field iterator concatenate back to ["T"], not to the canonical full
field list (required fields united in, sorted): the iterator batches the
requested list as given, not the canonical list. -/
theorem C2_counterexample :
    (field_iter ["T"] false).flatten ≠ make_full_fields ["T"] false := by
  rw [field_iter_join]
  intro h
  have hG : "G" ∈ make_full_fields ["T"] false :=
    (mem_make_full_fields_load "G" ["T"]).mpr ⟨Or.inl (by decide), by decide⟩
  rw [← h] at hG
  exact absurd hG (by decide)

/-- C2 (amended): the batching stage splits the requested field list as
given — concatenating the batches in order yields the requested list, not
the canonical full field list — into ordered batches of at most 10 fields;
extraction and loading batch the same list identically (the context flag
does not change the batches); and the canonical full-field transform
(required fields ∪ batch fields, minus velocity when not extracting,
sorted) is applied to each batch separately by the file-naming and
column-index helpers. -/
theorem C2_field_batching (fields : List String) (ex : Bool) :
    (field_iter fields ex).flatten = fields ∧
    field_iter fields true = field_iter fields false ∧
    ∀ b ∈ field_iter fields ex, b.length ≤ 10 ∧
      (make_full_fields b false).Sorted (· < ·) ∧
      (∀ x, x ∈ make_full_fields b false ↔
        (x ∈ req_fields ∨ x ∈ b) ∧ x ≠ "U") ∧
      (∀ x, x ∈ make_full_fields b true ↔ x ∈ req_fields ∨ x ∈ b) := by
  refine ⟨field_iter_join fields ex, field_iter_flag fields, ?_⟩
  intro b hb
  exact ⟨(mem_field_iter fields ex b hb).1, sorted_make_full_fields b false,
    fun x => mem_make_full_fields_load x b,
    fun x => mem_make_full_fields_ex x b⟩

/-- C4: validating a matrix against itself gives an elementwise relative
error of exactly zero (the 1e-300 floored denominator never divides zero
into anything else), so the reported inf-norm error and mean error are both
zero, for any square-root implementation sending 0 to 0.  The nonemptiness
hypotheses restrict the statement to genuine sample matrices, on which the
source's numpy norm reductions are defined. -/
theorem C4_self_validation (m : Mat) (sqrt : ℚ → ℚ) (hs : sqrt 0 = 0)
    (hm : m ≠ []) (hrows : ∀ r ∈ m, 2 ≤ r.length) :
    (∀ r ∈ relDiff m m, ∀ x ∈ r, x = 0) ∧
    rel_err_inf m m = 0 ∧ rel_err_mean sqrt m m = 0 := by
  refine ⟨fun r hr x hx => relDiff_self_zero m r hr x hx, ?_, ?_⟩
  · unfold rel_err_inf
    rw [vecInf_zero, mul_zero]
    intro x hx
    rcases List.mem_map.mp hx with ⟨r, hr, hre⟩
    rw [← hre]
    exact vecInf_zero r (relDiff_self_zero m r hr)
  · unfold rel_err_mean
    have hrowzero : ∀ r ∈ relDiff m m, vecL2 sqrt r = 0 := by
      intro r hr
      unfold vecL2
      rw [sumsq_zero r (relDiff_self_zero m r hr), hs]
    have houter : vecL2 sqrt ((relDiff m m).map
        (fun r => vecL2 sqrt r / (((relDiff m m).headD []).length : ℚ))) =
        0 := by
      have hall : ∀ x ∈ (relDiff m m).map
          (fun r => vecL2 sqrt r / (((relDiff m m).headD []).length : ℚ)),
          x = 0 := by
        intro x hx
        rcases List.mem_map.mp hx with ⟨r, hr, hre⟩
        rw [← hre, hrowzero r hr, zero_div]
      set v := (relDiff m m).map
        (fun r => vecL2 sqrt r / (((relDiff m m).headD []).length : ℚ))
        with hv
      unfold vecL2
      rw [sumsq_zero v hall, hs]
    rw [houter, zero_mul, zero_div]

/-- C4 witness: the self-comparison of a concrete two-point matrix has
all-zero error matrix, zero inf-norm and zero mean error. -/
theorem C4_witness :
    (∀ r ∈ relDiff [[0, 1, 2], [1, 3, 4]] [[0, 1, 2], [1, 3, 4]],
      ∀ x ∈ r, x = 0) ∧
    rel_err_inf [[0, 1, 2], [1, 3, 4]] [[0, 1, 2], [1, 3, 4]] = 0 ∧
    rel_err_mean (fun q => q) [[0, 1, 2], [1, 3, 4]]
      [[0, 1, 2], [1, 3, 4]] = 0 :=
  C4_self_validation [[0, 1, 2], [1, 3, 4]] (fun q => q) rfl
    (by simp) (by decide)

/-- C5: the field iterator yields batches of between 1 and 10 fields whose
in-order concatenation is exactly the input list (so relative order is
preserved within and across batches), and an empty field list yields an
empty batch sequence. -/
theorem C5_batch_iterator (l : List String) (ex : Bool) :
    (field_iter l ex).flatten = l ∧
    (∀ b ∈ field_iter l ex, 1 ≤ b.length ∧ b.length ≤ 10) ∧
    field_iter [] ex = [] :=
  ⟨field_iter_join l ex,
   fun b hb => ⟨List.length_pos.mpr (mem_field_iter l ex b hb).2,
     (mem_field_iter l ex b hb).1⟩,
   field_iter_nil ex⟩

/-- C7: when a discovered time t assembles successfully, the load loop
stores the snapshot under the first requested time (in the request list's
iteration order) that matches t — the element nice_time returns — and that
element is a match preceded only by non-matches, regardless of whether a
closer match appears later in the list. -/
theorem C7_first_match (fields : List String) (timelist : List ℚ)
    (file : ℚ → String → Option (List ℚ)) (t : ℚ) (ts : List ℚ)
    (acc : List (ℚ × Option Mat)) (x : ℚ) (comp : Option Mat)
    (h1 : nice_time timelist t = some x)
    (h2 : assembleTime (file t) fields = Except.ok comp) :
    caseLoop fields timelist file (t :: ts) acc =
      caseLoop fields timelist file ts (dictInsert x comp acc) ∧
    x ∈ timelist ∧ timecheck x t = true ∧
    ∃ i, timelist.get? i = some x ∧
      ∀ j, j < i → ∀ y, timelist.get? j = some y → timecheck y t = false := by
  have hfind : timelist.find? (fun z => timecheck z t) = some x := h1
  obtain ⟨i, hi, hpx, hbefore⟩ := find?_first (fun z => timecheck z t)
    timelist x hfind
  exact ⟨caseLoop_step fields timelist file t ts acc comp x h2 h1,
    List.mem_of_find?_eq_some hfind, hpx, i, hi, hbefore⟩

/-- C9: two time values are the same snapshot exactly when they satisfy the
numpy isclose inequality with absolute and relative tolerance 1e-10, and
the load loop skips a discovered time that matches no requested time when a
request list was given. -/
theorem C9_time_matching (t1 t2 : ℚ) (fields : List String)
    (timelist : List ℚ) (file : ℚ → String → Option (List ℚ)) (t : ℚ)
    (ts : List ℚ) (acc : List (ℚ × Option Mat)) (hne : timelist ≠ [])
    (hno : ∀ x ∈ timelist, timecheck x t = false) :
    (timecheck t1 t2 = true ↔
      |t1 - t2| ≤ 1 / 10 ^ 10 + 1 / 10 ^ 10 * |t2|) ∧
    caseLoop fields timelist file (t :: ts) acc =
      caseLoop fields timelist file ts acc := by
  constructor
  · unfold timecheck
    exact decide_eq_true_iff
  · refine caseLoop_skip fields timelist file t ts acc hne ?_
    rw [List.any_eq_false]
    intro x hx
    rw [hno x hx]
    simp

/-- C1 counterexample: with the baseline case entirely absent from the
results collection (one non-baseline case does have data at the requested
time 0), validate hits an uncaught KeyError — modelled as none — instead
of silently skipping the missing baseline data. -/
theorem C1_counterexample :
    validate [0] [("caseA", [(0, [[0, 1], [1, 2]])])] ["T"] "SandiaD_LTS" =
      none := rfl

/-- C1 (amended): in validate, on a results collection of well-formed
sample matrices of matching shape (the domain on which the source's numpy
subtraction and norm reductions are defined — outside it the source raises
ValueError rather than completing), missing data for a (case, time) pair
is silently skipped only on the candidate side: when every requested time
has baseline data, validate raises no error, skips exactly the candidate
pairs without data and reports every pair with data; but a requested time
with missing baseline data (or an absent baseline case) raises an uncaught
KeyError that aborts validation. -/
theorem C1_missing_data_handling (times : List ℚ)
    (results : List (String × List (ℚ × Mat))) (fields : List String)
    (base : String) (hnodup : (results.map Prod.fst).Nodup)
    (hmats : ∀ e ∈ results, ∀ p ∈ e.2, SampleMat p.2)
    (hshape : ∀ t ∈ times, ∀ comp,
      (lookupCase results base).bind (fun d => dictGet d t) = some comp →
      ∀ e ∈ results, ∀ test, dictGet e.2 t = some test →
        SameShape comp test) :
    ((∀ t ∈ times,
        ((lookupCase results base).bind (fun d => dictGet d t)).isSome) →
      ValidateSkipBehaviour times results fields base) ∧
    (∀ t ∈ times,
      (lookupCase results base).bind (fun d => dictGet d t) = none →
      validate times results fields base = none) := by
  constructor
  · intro hbase
    refine ⟨validateSkipAll times results base,
      validate_ok times results fields base hbase, ?_, ?_, ?_⟩
    · intro e he
      obtain ⟨t, ht, comp, hcomp, hei⟩ :=
        (mem_validateSkipAll times results base e).mp he
      obtain ⟨h1, h2, d, hd, test, htest, -⟩ :=
        mem_validateInner comp t base results e hei
      rw [h1]
      refine ⟨ht, h2, d, hd, ?_⟩
      rw [htest]
      rfl
    · intro c d hcd hc t ht hnone x hx
      obtain ⟨t2, ht2, comp, hcomp, hei⟩ :=
        (mem_validateSkipAll times results base (c, t, x)).mp hx
      obtain ⟨h1, h2, d2, hd2, test, htest, -⟩ :=
        mem_validateInner comp t2 base results (c, t, x) hei
      have hteq : t = t2 := h1
      subst hteq
      have hdd : d = d2 := assoc_unique results c d d2 hnodup hcd hd2
      rw [← hdd, hnone] at htest
      cases htest
    · intro c d hcd hc t ht test comp htest hcomp
      exact (mem_validateSkipAll times results base
        (c, t, rel_err_inf comp test)).mpr
        ⟨t, ht, comp, hcomp,
          validateInner_reports comp t base results c d test hcd hc htest⟩
  · intro t ht hmiss
    exact validate_none_of_missing times results fields base t ht hmiss

/-- C1 witness: the amended claim at a concrete two-case results
collection of well-formed, shape-matched sample matrices whose baseline
has data at the one requested time. -/
theorem C1_witness :
    ((∀ t ∈ ([0] : List ℚ),
        ((lookupCase resW "SandiaD_LTS").bind
          (fun d => dictGet d t)).isSome) →
      ValidateSkipBehaviour [0] resW ["T"] "SandiaD_LTS") ∧
    (∀ t ∈ ([0] : List ℚ),
      (lookupCase resW "SandiaD_LTS").bind (fun d => dictGet d t) = none →
      validate [0] resW ["T"] "SandiaD_LTS" = none) :=
  C1_missing_data_handling [0] resW ["T"] "SandiaD_LTS" (by decide)
    (by
      intro e he p hp
      rcases List.mem_cons.mp he with rfl | he2
      · have hp2 : p = ((0 : ℚ), ([[0, 1], [1, 2]] : Mat)) := by
          simpa using hp
        rw [hp2]
        exact ⟨by decide, by decide⟩
      · have he3 : e = ("caseA", [(0, [[0, 1], [1, 3]])]) := by
          simpa using he2
        subst he3
        have hp2 : p = ((0 : ℚ), ([[0, 1], [1, 3]] : Mat)) := by
          simpa using hp
        rw [hp2]
        exact ⟨by decide, by decide⟩)
    (by
      intro t ht comp hcomp e he test htest
      have ht0 : t = 0 := List.mem_singleton.mp ht
      subst ht0
      have hc0 : (lookupCase resW "SandiaD_LTS").bind
          (fun d => dictGet d 0) = some [[0, 1], [1, 2]] := rfl
      rw [hc0] at hcomp
      obtain rfl : ([[0, 1], [1, 2]] : Mat) = comp := Option.some.inj hcomp
      rcases List.mem_cons.mp he with rfl | he2
      · have htest2 : some ([[0, 1], [1, 2]] : Mat) = some test := htest
        obtain rfl : ([[0, 1], [1, 2]] : Mat) = test :=
          Option.some.inj htest2
        exact ⟨by decide, by decide⟩
      · have he3 : e = ("caseA", [(0, [[0, 1], [1, 3]])]) := by
          simpa using he2
        subst he3
        have htest2 : some ([[0, 1], [1, 3]] : Mat) = some test := htest
        obtain rfl : ([[0, 1], [1, 3]] : Mat) = test :=
          Option.some.inj htest2
        exact ⟨by decide, by decide⟩)

theorem timecheck_eps10_zero : timecheck (1 / 10 ^ 10) 0 = true := by
  unfold timecheck
  rw [decide_eq_true_eq, sub_zero, abs_zero,
    abs_of_nonneg (by norm_num : (0 : ℚ) ≤ 1 / 10 ^ 10)]
  norm_num

theorem timecheck_one_three : timecheck 1 3 = false := by
  unfold timecheck
  rw [decide_eq_false_iff_not]
  intro h
  rw [abs_of_nonpos (by norm_num : (1 : ℚ) - 3 ≤ 0),
    abs_of_nonneg (by norm_num : (0 : ℚ) ≤ 3)] at h
  norm_num at h

/-- C7 witness: with requested times [1e-10, 0] and discovered time 0, both
requested times match within tolerance, and the snapshot is stored under
the first match 1e-10 even though the later requested time 0 is closer. -/
theorem C7_witness :
    caseLoop [] [1 / 10 ^ 10, 0] (fun _ _ => none) (0 :: []) [] =
      caseLoop [] [1 / 10 ^ 10, 0] (fun _ _ => none) []
        (dictInsert (1 / 10 ^ 10) none []) ∧
    (1 / 10 ^ 10 : ℚ) ∈ [1 / 10 ^ 10, 0] ∧
    timecheck (1 / 10 ^ 10) 0 = true ∧
    ∃ i, ([1 / 10 ^ 10, 0] : List ℚ).get? i = some (1 / 10 ^ 10) ∧
      ∀ j, j < i → ∀ y, ([1 / 10 ^ 10, 0] : List ℚ).get? j = some y →
        timecheck y 0 = false :=
  C7_first_match [] [1 / 10 ^ 10, 0] (fun _ _ => none) 0 [] [] (1 / 10 ^ 10)
    none
    (by
      unfold nice_time
      exact List.find?_cons_of_pos _ (by simpa using timecheck_eps10_zero))
    (by
      unfold assembleTime
      rw [field_iter_nil]
      rfl)

/-- C9 witness: the tolerance iff at (0, 0), and the skip of discovered
time 3 when the requested list [1] has no match for it. -/
theorem C9_witness :
    (timecheck 0 0 = true ↔
      |(0 : ℚ) - 0| ≤ 1 / 10 ^ 10 + 1 / 10 ^ 10 * |(0 : ℚ)|) ∧
    caseLoop [] [1] (fun _ _ => none) (3 :: []) [] =
      caseLoop [] [1] (fun _ _ => none) [] [] :=
  C9_time_matching 0 0 [] [1] (fun _ _ => none) 3 [] [] (by simp)
    (by
      intro x hx
      rw [List.mem_singleton.mp hx]
      exact timecheck_one_three)

/-- C6: a (case, time) snapshot assembled from its batch files, all present
and holding the same row count R, yields a matrix of exactly R rows and
1 + (total requested field count) columns, whose column 0 is the position
column carried from the first batch's file only. -/
theorem C6_assembled_shape (read : String → Option (List ℚ))
    (fields : List String) (R : Nat) (hne : fields ≠ []) (hU : "U" ∉ fields)
    (hfiles : ∀ f ∈ field_iter fields false, ∃ d,
      read ("line_" ++ make_fields f false ++ ".xy") = some d ∧
      d.length = R * (num_fields f false + 1)) :
    ∃ m, assembleTime read fields = Except.ok (some m) ∧
      m.length = R ∧ (∀ r ∈ m, r.length = 1 + fields.length) ∧
      ∀ f1 d1, (field_iter fields false).head? = some f1 →
        read ("line_" ++ make_fields f1 false ++ ".xy") = some d1 →
        m.map (fun r => r.getD 0 0) =
          (reshape (num_fields f1 false + 1) d1).map (fun r => r.getD 0 0) :=
  assembleTime_dims read fields R hne hU hfiles

/-- C6 witness: the shape theorem at field list ["T"] with every batch file
present and empty, so the snapshot has zero rows and 1 + 1 columns. -/
theorem C6_witness :
    ∃ m, assembleTime (fun _ => some []) ["T"] = Except.ok (some m) ∧
      m.length = 0 ∧
      (∀ r ∈ m, r.length = 1 + (["T"] : List String).length) ∧
      ∀ f1 d1, (field_iter ["T"] false).head? = some f1 →
        (some [] : Option (List ℚ)) = some d1 →
        m.map (fun r => r.getD 0 0) =
          (reshape (num_fields f1 false + 1) d1).map (fun r => r.getD 0 0) :=
  C6_assembled_shape (fun _ => some []) ["T"] 0 (by decide) (by decide)
    (by
      intro f hf
      exact ⟨[], rfl, by simp⟩)

theorem tc_5000 : timecheck 5000 (5000 + 1 / 10 ^ 7) = true := by
  unfold timecheck
  rw [decide_eq_true_eq,
    abs_of_nonpos (by norm_num : (5000 : ℚ) - (5000 + 1 / 10 ^ 7) ≤ 0),
    abs_of_nonneg (by norm_num : (0 : ℚ) ≤ 5000 + 1 / 10 ^ 7)]
  norm_num

theorem load_case8_eval :
    load [case8] [] [5000] =
      some (([5000] : List ℚ).toFinset, [("c", [(5000, none)])]) := by
  have hassem : assembleTime (case8.file (5000 + 1 / 10 ^ 7)) [] =
      Except.ok none := by
    unfold assembleTime
    rw [field_iter_nil]
    rfl
  have hnice : nice_time [5000] (5000 + 1 / 10 ^ 7) = some 5000 := by
    unfold nice_time
    exact List.find?_cons_of_pos _ (by simpa using tc_5000)
  have hcl : caseLoop [] [5000] case8.file [5000 + 1 / 10 ^ 7] [] =
      Except.ok [(5000, none)] := by
    rw [caseLoop_step [] [5000] case8.file (5000 + 1 / 10 ^ 7) [] [] none
      5000 hassem hnice, caseLoop_nil]
    rfl
  unfold load
  rw [loadGo_cons_ok [] [5000] case8 [] (([5000] : List ℚ).toFinset) []
    [(5000, none)] hcl, loadGo_nil]
  simp [case8]

/-- C8 counterexample: with requested time 5000 and discovered snapshot
time 5000 + 1e-7 (within tolerance, successfully stored), load completes
and returns the time set of [5000] only: the discovered time itself is not
in the returned set, which therefore is not the union of the requested and
discovered times. -/
theorem C8_counterexample :
    load [case8] [] [5000] =
      some (([5000] : List ℚ).toFinset, [("c", [(5000, none)])]) ∧
    (5000 + 1 / 10 ^ 7 : ℚ) ∉ ([5000] : List ℚ).toFinset := by
  refine ⟨load_case8_eval, ?_⟩
  rw [List.mem_toFinset, List.mem_singleton]
  norm_num

/-- C8 (amended): whenever load completes, the returned set of known times
equals exactly the set of requested times — each stored snapshot adds its
matched requested time, which is already in the set, never the discovered
time itself — and every case present in the returned results collection
has a non-empty time-to-matrix mapping. -/
theorem C8_load_returns (cases : List Case) (fields : List String)
    (timelist : List ℚ) (tv : Finset ℚ)
    (res : List (String × List (ℚ × Option Mat)))
    (hok : load cases fields timelist = some (tv, res)) :
    tv = timelist.toFinset ∧ ∀ e ∈ res, e.2 ≠ [] := by
  unfold load at hok
  exact loadGo_spec fields timelist cases timelist.toFinset [] tv res rfl
    (by intro e he; simp at he) hok

/-- C8 witness: the amended claim at the concrete one-case environment of
the counterexample evaluation. -/
theorem C8_witness :
    ([5000] : List ℚ).toFinset = ([5000] : List ℚ).toFinset ∧
    ∀ e ∈ [("c", [((5000 : ℚ), (none : Option Mat))])], e.2 ≠ [] :=
  C8_load_returns [case8] [] [5000] (([5000] : List ℚ).toFinset)
    [("c", [(5000, none)])] load_case8_eval

/-- C10 (amended): with an empty requested time list, any case whose first
discovered time directory assembles successfully (no file missing; in
particular always when the field list is empty) makes the time-association
step raise an uncaught StopIteration aborting all of load; when the
assembly instead hits a missing file first, that exception is caught and
load completes, so discovered time directories alone do not force the
abort. -/
theorem C10_empty_timelist_crash (pre post : List Case) (c : Case)
    (fields : List String) (t : ℚ) (ts : List ℚ) (m : Option Mat)
    (hdirs : c.timeDirs = t :: ts)
    (hok : assembleTime (c.file t) fields = Except.ok m) :
    load (pre ++ c :: post) fields [] = none := by
  unfold load
  have h : ∀ (timev : Finset ℚ)
      (results : List (String × List (ℚ × Option Mat))),
      loadGo fields [] (pre ++ c :: post) timev results = none := by
    induction pre with
    | nil =>
      intro timev results
      rw [List.nil_append]
      have hcrash : caseLoop fields [] c.file c.timeDirs [] =
          Except.error () := by
        rw [hdirs]
        exact caseLoop_stop fields [] c.file t ts [] m (by simp) hok rfl
      exact loadGo_cons_err fields [] c post timev results hcrash
    | cons c2 cs ih =>
      intro timev results
      rw [List.cons_append]
      cases hcl : caseLoop fields [] c2.file c2.timeDirs [] with
      | error e =>
        cases e
        exact loadGo_cons_err fields [] c2 (cs ++ c :: post) timev results
          hcl
      | ok entries =>
        rw [loadGo_cons_ok fields [] c2 (cs ++ c :: post) timev results
          entries hcl]
        exact ih _ _
  exact h _ _

/-- C10 counterexample: empty requested time list and one case with one
discovered time directory whose files are all missing: the
FileNotFoundError is caught, the case is dropped and load completes
normally — the StopIteration is never reached, so discovering a time
directory under an empty request list does not always abort load. -/
theorem C10_counterexample : load [case10] ["T"] [] = some (∅, []) := by
  have hfnf : assembleTime (case10.file 0) ["T"] =
      Except.error LoadErr.fnf := by
    unfold assembleTime
    rw [field_iter_cons ["T"] false (by decide)]
    rfl
  have hcl : caseLoop ["T"] [] case10.file [0] [] = Except.ok [] :=
    caseLoop_fnf ["T"] [] case10.file 0 [] [] (by simp) hfnf
  unfold load
  rw [loadGo_cons_ok ["T"] [] case10 [] (([] : List ℚ).toFinset) [] [] hcl,
    loadGo_nil]
  simp

/-- C10 witness: with an empty field list (the assembly of a snapshot
trivially succeeds) and one discovered time, the empty requested time list
aborts load with StopIteration. -/
theorem C10_witness : load ([] ++ case10 :: []) [] [] = none :=
  C10_empty_timelist_crash [] [] case10 [] 0 [] none rfl
    (by
      unfold assembleTime
      rw [field_iter_nil]
      rfl)

theorem relErrEntry_300_303 : relErrEntry 300 303 = 3 / (eps300 + 300) := by
  unfold relErrEntry
  rw [abs_of_nonpos (by norm_num : (300 : ℚ) - 303 ≤ 0),
    abs_of_nonneg (by norm_num : (0 : ℚ) ≤ 300)]
  norm_num

theorem relErrEntry_101000_102010 :
    relErrEntry 101000 102010 = 1010 / (eps300 + 101000) := by
  unfold relErrEntry
  rw [abs_of_nonpos (by norm_num : (101000 : ℚ) - 102010 ≤ 0),
    abs_of_nonneg (by norm_num : (0 : ℚ) ≤ 101000)]
  norm_num

theorem relDiff_scenario :
    relDiff base3 cand3 =
      [[3 / (eps300 + 300), 0], [0, 1010 / (eps300 + 101000)]] := by
  have h0 : relDiff base3 cand3 =
      [[relErrEntry 300 303, relErrEntry 100000 100000],
       [relErrEntry 310 310, relErrEntry 101000 102010]] := rfl
  rw [h0, relErrEntry_300_303, relErrEntry_101000_102010,
    relErrEntry_self 100000, relErrEntry_self 310]

theorem d1_nonneg : (0 : ℚ) ≤ 3 / (eps300 + 300) := by
  unfold eps300
  positivity

theorem d2_nonneg : (0 : ℚ) ≤ 1010 / (eps300 + 101000) := by
  unfold eps300
  positivity

theorem d1_le_d2 : 3 / (eps300 + 300) ≤ 1010 / (eps300 + 101000) := by
  rw [div_le_div_iff₀ (by unfold eps300; positivity)
    (by unfold eps300; positivity)]
  unfold eps300
  norm_num

theorem vecInf_d1 :
    vecInf [3 / (eps300 + 300), 0] = 3 / (eps300 + 300) := by
  show max |3 / (eps300 + 300)| (max |(0 : ℚ)| 0) = 3 / (eps300 + 300)
  rw [abs_zero, max_self, abs_of_nonneg d1_nonneg, max_eq_left d1_nonneg]

theorem vecInf_d2 :
    vecInf [0, 1010 / (eps300 + 101000)] = 1010 / (eps300 + 101000) := by
  show max |(0 : ℚ)| (max |1010 / (eps300 + 101000)| 0) =
    1010 / (eps300 + 101000)
  rw [abs_zero, abs_of_nonneg d2_nonneg, max_eq_left d2_nonneg,
    max_eq_right d2_nonneg]

theorem vecInf_d1d2 :
    vecInf [3 / (eps300 + 300), 1010 / (eps300 + 101000)] =
      1010 / (eps300 + 101000) := by
  show max |3 / (eps300 + 300)| (max |1010 / (eps300 + 101000)| 0) =
    1010 / (eps300 + 101000)
  rw [abs_of_nonneg d1_nonneg, abs_of_nonneg d2_nonneg,
    max_eq_left d2_nonneg, max_eq_right d1_le_d2]

theorem rel_err_inf_scenario :
    rel_err_inf base3 cand3 = 100 * (1010 / (eps300 + 101000)) := by
  unfold rel_err_inf
  rw [relDiff_scenario]
  show (100 : ℚ) * vecInf [vecInf [3 / (eps300 + 300), 0],
    vecInf [0, 1010 / (eps300 + 101000)]] =
    100 * (1010 / (eps300 + 101000))
  rw [vecInf_d1, vecInf_d2, vecInf_d1d2]

theorem field_err_T_scenario :
    field_err ["T", "p"] "T" base3 cand3 = 100 * (3 / (eps300 + 300)) := by
  unfold field_err
  rw [relDiff_scenario]
  show (100 : ℚ) * vecInf [3 / (eps300 + 300), 0] =
    100 * (3 / (eps300 + 300))
  rw [vecInf_d1]

theorem field_err_p_scenario :
    field_err ["T", "p"] "p" base3 cand3 =
      100 * (1010 / (eps300 + 101000)) := by
  unfold field_err
  rw [relDiff_scenario]
  show (100 : ℚ) * vecInf [0, 1010 / (eps300 + 101000)] =
    100 * (1010 / (eps300 + 101000))
  rw [vecInf_d2]

/-- C3 counterexample: at the spec's own scenario matrices the reported
pressure relative error is not 0: the candidate's second-row pressure
1.0201e5 differs from the baseline's 1.01e5 by one percent, so the
reported p error exceeds 99/100 of a percent. -/
theorem C3_counterexample :
    field_err ["T", "p"] "p" base3 cand3 ≠ 0 ∧
    99 / 100 < field_err ["T", "p"] "p" base3 cand3 := by
  constructor
  · rw [field_err_p_scenario]
    unfold eps300
    norm_num
  · rw [field_err_p_scenario]
    unfold eps300
    norm_num

/-- C3 (amended): at the scenario matrices, the elementwise temperature
error at the first spatial point, the reported inf-norm error, the
reported temperature error and the reported PRESSURE error are each within
10^-290 of 1 (percent): the pressure error is 1%, not 0%.  (The exact
rational values sit infinitesimally below 1 because of the 1e-300 floor the
source adds to the denominator; in the source's float arithmetic that floor
is absorbed and the reported values are exactly 1.) -/
theorem C3_scenario_values :
    |((relDiff base3 cand3).headD []).headD 0 * 100 - 1| < 1 / 10 ^ 290 ∧
    |rel_err_inf base3 cand3 - 1| < 1 / 10 ^ 290 ∧
    |field_err ["T", "p"] "T" base3 cand3 - 1| < 1 / 10 ^ 290 ∧
    |field_err ["T", "p"] "p" base3 cand3 - 1| < 1 / 10 ^ 290 := by
  have hpoint : ((relDiff base3 cand3).headD []).headD 0 =
      3 / (eps300 + 300) := by
    rw [relDiff_scenario]
    rfl
  refine ⟨?_, ?_, ?_, ?_⟩
  · rw [hpoint]
    unfold eps300
    rw [abs_lt]
    constructor <;> norm_num
  · rw [rel_err_inf_scenario]
    unfold eps300
    rw [abs_lt]
    constructor <;> norm_num
  · rw [field_err_T_scenario]
    unfold eps300
    rw [abs_lt]
    constructor <;> norm_num
  · rw [field_err_p_scenario]
    unfold eps300
    rw [abs_lt]
    constructor <;> norm_num
